import Mathlib

/-
Verification of the Steam download monitor (src/script.py) against its
natural-language specification.  The Python source is shallowly embedded:
pure functions become Lean functions, file reads become explicit
`Option String` / `List String` inputs, the polling loop body becomes a
state-passing tick function.  Floats in speed arithmetic are modelled by
exact rationals: every multiplication/division the source performs is by
a power of two, hence exact in IEEE double as well for all inputs that
arise.  Python regular expressions are modelled by explicit character
scanners that follow the source patterns literally (commented at each
definition); the character classes are the ASCII fragments of Python's
Unicode classes, which is faithful for the ASCII log lines at issue.
-/

set_option maxHeartbeats 1000000
set_option maxRecDepth 100000

namespace SteamMon

/-- KeyValue tree node: a leaf string or a nested mapping.  Mirrors the
Python value space of parse_keyvalues in src/script.py, where every value
is either a str or a dict. -/
inductive KV where
  | str : String → KV
  | obj : List (String × KV) → KV

/-- Python dict assignment obj[key] = v: if the key is present its value
is replaced in place (the key keeps its position), otherwise the new pair
is appended at the end.  This is exactly CPython dict semantics used by
parse_object. -/
def kvInsert : List (String × KV) → String → KV → List (String × KV)
  | [], k, v => [(k, v)]
  | (k0, v0) :: rest, k, v =>
    if k0 = k then (k0, v) :: rest else (k0, v0) :: kvInsert rest k v

/-- Python dict .get(key): the value bound to key, if any. -/
def kvLookup : List (String × KV) → String → Option KV
  | [], _ => none
  | (k0, v0) :: rest, k => if k0 = k then some v0 else kvLookup rest k

/-- Python `key in dict` membership test. -/
def kvHasKey : List (String × KV) → String → Bool
  | [], _ => false
  | (k0, _) :: rest, k => k0 = k || kvHasKey rest k

/-- Helper for the tokenizer: when a double quote is never closed before
the end of the input, the regex fails to match at that quote and scanning
resumes one character later; the remaining characters then contain no
quote, so the only tokens the regex can still produce are the brace
tokens occurring among them, in order. -/
def bracesOf (cs : List Char) : List String :=
  cs.filterMap fun c =>
    if c = '\x7b' then some "\x7b"
    else if c = '\x7d' then some "\x7d" else none

/-- Tokenizer of parse_keyvalues, modelling
_token_re = re.compile(r..quoted string, open brace, close brace..) and
the finditer loop of src/script.py lines 30-40: a quoted string token is
the text between a quote and the next quote (no escapes), braces are
single-character tokens, every other character is skipped.  The second
argument is `some acc` while inside an open quoted string (acc holds the
content read so far, reversed), `none` outside. -/
def tokenizeAux : List Char → Option (List Char) → List String
  | [], none => []
  | [], some acc => bracesOf acc.reverse
  | c :: rest, none =>
    if c = '"' then tokenizeAux rest (some [])
    else if c = '\x7b' then "\x7b" :: tokenizeAux rest none
    else if c = '\x7d' then "\x7d" :: tokenizeAux rest none
    else tokenizeAux rest none
  | c :: rest, some acc =>
    if c = '"' then String.mk acc.reverse :: tokenizeAux rest none
    else tokenizeAux rest (some (c :: acc))

/-- Token list of a character list (the body of parse_keyvalues before
parse_object runs). -/
def tokenize (cs : List Char) : List String := tokenizeAux cs none

/-- parse_object of src/script.py lines 44-63 as a fuel-indexed function
over the token list.  The index i of the source becomes the unconsumed
suffix of tokens; the returned pair is (built object, unconsumed rest).
`none` is returned only on fuel exhaustion, which theorem
parseObjectF_isSome below shows never happens at the fuel parse_keyvalues
supplies; apart from fuel the translation follows the source line by
line: a close-brace token in key position returns, a key with no
following token is dropped, an open-brace token in value position
recurses, any other token in value position is stored as a string. -/
def parseObjectF : Nat → List (String × KV) → List String →
    Option (List (String × KV) × List String)
  | 0, _, _ => none
  | _ + 1, acc, [] => some (acc, [])
  | fuel + 1, acc, tok :: rest =>
    if tok = "\x7d" then some (acc, rest)
    else
      match rest with
      | [] => some (acc, [])
      | nxt :: rest2 =>
        if nxt = "\x7b" then
          match parseObjectF fuel [] rest2 with
          | none => none
          | some (child, rest3) =>
            parseObjectF fuel (kvInsert acc tok (KV.obj child)) rest3
        else
          parseObjectF fuel (kvInsert acc tok (KV.str nxt)) rest2

/-- Run the token-level parser on a whole token list, as parse_keyvalues
does: one call to parse_object from an empty object; tokens left over
after a top-level close brace are discarded. -/
def parseTokens (ts : List String) : List (String × KV) :=
  match parseObjectF (ts.length + 1) [] ts with
  | some (o, _) => o
  | none => []

/-- parse_keyvalues of src/script.py lines 32-65: tokenize, then parse
one object. -/
def parse_keyvalues (text : String) : List (String × KV) :=
  parseTokens (tokenize text.data)

/-- load_kv_file of src/script.py lines 67-72, with the file read made
explicit: `none` models a missing or unreadable file (the except branch,
which returns the empty dict), `some text` the file content. -/
def load_kv_file : Option String → List (String × KV)
  | none => []
  | some text => parse_keyvalues text

/-- Digit string (with CPython's single underscores allowed between
digits) accumulated into a Nat, as accepted by int(); first character is
already known to be a digit when called. -/
def pyDigits : List Char → Nat → Option Nat
  | [], acc => some acc
  | '_' :: c :: rest, acc =>
    if c.isDigit then pyDigits rest (acc * 10 + (c.toNat - 48)) else none
  | ['_'], _ => none
  | c :: rest, acc =>
    if c.isDigit then pyDigits rest (acc * 10 + (c.toNat - 48)) else none

/-- Python str.strip(): drop whitespace at both ends (ASCII
fragment). -/
def pyStrip (cs : List Char) : List Char :=
  ((cs.dropWhile Char.isWhitespace).reverse.dropWhile
    Char.isWhitespace).reverse

/-- Digit part after the optional sign: must start with a digit. -/
def pyNatStart : List Char → Option Nat
  | [] => none
  | c :: rest => if c.isDigit then pyDigits (c :: rest) 0 else none

/-- Sign and digits of a stripped int() argument. -/
def pyIntCore : List Char → Option Int
  | [] => none
  | c :: rest =>
    if c = '+' then (pyNatStart rest).map Int.ofNat
    else if c = '-' then (pyNatStart rest).map fun n => -(Int.ofNat n)
    else (pyNatStart (c :: rest)).map Int.ofNat

/-- Python int(s) on a string: strip whitespace, optional sign, then
digits (ASCII fragment); `none` models the ValueError branch. -/
def pyIntParse (s : String) : Option Int := pyIntCore (pyStrip s.data)

mutual

/-- Python repr of a parsed value (str(x) for a dict delegates to repr).
String escaping inside repr is not modelled (the claims never evaluate a
repr of a string containing quotes); what matters downstream is only
that a dict's repr starts with an open brace, so int() on it fails. -/
def pyReprKV : KV → String
  | KV.str s => "'" ++ s ++ "'"
  | KV.obj o => "\x7b" ++ pyReprEntries o ++ "\x7d"

/-- Comma-separated "'key': value" entries of a dict repr. -/
def pyReprEntries : List (String × KV) → String
  | [] => ""
  | [(k, v)] => "'" ++ k ++ "': " ++ pyReprKV v
  | (k, v) :: e :: rest =>
    "'" ++ k ++ "': " ++ pyReprKV v ++ ", " ++ pyReprEntries (e :: rest)

end

/-- Python str(x) for a parsed value: a str is returned unchanged, a
dict renders as its repr. -/
def pyStr : KV → String
  | KV.str s => s
  | KV.obj o => pyReprKV (KV.obj o)

/-- to_int of src/script.py lines 113-117: int(str(x)) with 0 on any
failure; the argument is the (possibly absent) raw dict value, and
str(None) is the literal "None", which int() rejects. -/
def pyToInt : Option KV → Int
  | none => (pyIntParse "None").getD 0
  | some v => (pyIntParse (pyStr v)).getD 0

/-- The 8-tuple returned by get_app_info, as a record (field order as in
the source return statement). -/
structure AppInfo where
  name : String
  bd : Int
  btd : Int
  sf : String
  bs : Int
  bts : Int
  bc : Int
  sod : Int
deriving Repr, DecidableEq

/-- isinstance(x, dict) test on an optional parsed value. -/
def isObjVal : Option KV → Bool
  | some (KV.obj _) => true
  | _ => false

/-- get_app_info of src/script.py lines 106-129, with the manifest file
read made explicit as an `Option String` content (none = missing or
unreadable).  If "AppState" is not a mapping the zero record with the
synthesized "AppID <id>" name is returned; otherwise each field is
extracted independently, numeric fields through to_int. -/
def get_app_info (appid : String) (content : Option String) : AppInfo :=
  let kv := load_kv_file content
  match kvLookup kv "AppState" with
  | some (KV.obj app) =>
    { name := match kvLookup app "name" with
        | some (KV.str s) => s
        | _ => "AppID " ++ appid
      bd := pyToInt (kvLookup app "BytesDownloaded")
      btd := pyToInt (kvLookup app "BytesToDownload")
      sf := match kvLookup app "StateFlags" with
        | none => ""
        | some v => pyStr v
      bs := pyToInt (kvLookup app "BytesStaged")
      bts := pyToInt (kvLookup app "BytesToStage")
      bc := pyToInt (kvLookup app "BytesCommitted")
      sod := pyToInt (kvLookup app "SizeOnDisk") }
  | _ =>
    { name := "AppID " ++ appid, bd := 0, btd := 0, sf := "",
      bs := 0, bts := 0, bc := 0, sod := 0 }

/-- Python str.lower() (ASCII fragment). -/
def strLower (s : String) : String := String.mk (s.data.map Char.toLower)

/-- Python str.endswith(suffix). -/
def strEndsWith (s suffix : String) : Bool := suffix.data.isSuffixOf s.data

/-- speed_to_bps of src/script.py lines 168-174 over exact rationals
(every multiplier is a power of two, so IEEE doubles compute the same
values for the inputs at issue).  The dict lookups are spelled out; an
unrecognized unit yields none, modelling the uncaught KeyError. -/
def speed_to_bps (val : ℚ) (unit : String) : Option ℚ :=
  let u := strLower unit
  if strEndsWith u "bit/s" then
    if u = "kbit/s" then some ((val * 1024) / 8)
    else if u = "mbit/s" then some ((val * 1048576) / 8)
    else if u = "gbit/s" then some ((val * 1073741824) / 8)
    else none
  else
    if u = "kb/s" then some (val * 1024)
    else if u = "mb/s" then some (val * 1048576)
    else if u = "gb/s" then some (val * 1073741824)
    else none

/-- Regex word character (ASCII fragment of Python's re \w). -/
def isWordChar (c : Char) : Bool := c.isAlphanum || c = '_'

/-- Case-insensitive literal match at the head of the input (how
re.IGNORECASE compares a literal): returns the matched slice, taken from
the input with its original case, and the remainder. -/
def ciMatchStart : List Char → List Char → Option (List Char × List Char)
  | [], cs => some ([], cs)
  | _ :: _, [] => none
  | p :: ps, c :: cs =>
    if c.toLower = p.toLower then
      (ciMatchStart ps cs).map fun pr => (c :: pr.1, pr.2)
    else none

/-- A regex word boundary holds after a literal when the next character
is absent or not a word character. -/
def boundaryAfter : List Char → Bool
  | [] => true
  | c :: _ => !isWordChar c

/-- One attempt of APPID_RE at the current position (the leading word
boundary is checked by the caller): case-insensitive "appid", optional
whitespace, at most one of : or =, optional whitespace, then the maximal
digit run, which matches the greedy d-3-10 with a trailing word boundary
exactly when its length is between 3 and 10 and the following character
is not a word character.  Returns the captured digit group. -/
def tryAppidAt (cs : List Char) : Option (List Char) :=
  match ciMatchStart "appid".data cs with
  | none => none
  | some (_, r1) =>
    let r2 := r1.dropWhile Char.isWhitespace
    let r3 := match r2 with
      | c :: t => if c = ':' || c = '=' then t else r2
      | [] => r2
    let r4 := r3.dropWhile Char.isWhitespace
    let ds := r4.takeWhile Char.isDigit
    let r5 := r4.dropWhile Char.isDigit
    if 3 ≤ ds.length ∧ ds.length ≤ 10 ∧ boundaryAfter r5 then some ds
    else none

/-- re.search scan for APPID_RE (src/script.py line 131): try every
position left to right; the Bool argument records whether the previous
character was a word character, so the leading word boundary can be
checked. -/
def appidGo : Bool → List Char → Option (List Char)
  | _, [] => none
  | prevW, c :: rest =>
    match (if prevW then none else tryAppidAt (c :: rest)) with
    | some ds => some ds
    | none => appidGo (isWordChar c) rest

/-- group(1) of APPID_RE's first match in the line, if any. -/
def appidSearch (cs : List Char) : Option (List Char) := appidGo false cs

/-- The test the log scanners apply to each line
(src/script.py lines 159-160 and 179-180): the first AppID-looking token
of the line exists and equals the target identifier. -/
def lineMentions (appid : String) (line : String) : Bool :=
  appidSearch line.data == some appid.data

/-- Whole-word test at the current position: the word matches
case-insensitively and is followed by a word boundary (the leading
boundary is checked by the caller). -/
def tryWordAt (w : List Char) (cs : List Char) : Bool :=
  match ciMatchStart w cs with
  | some (_, r) => boundaryAfter r
  | none => false

/-- re.search for a whole-word alternation: some word of the list occurs
in the text delimited by word boundaries on both sides. -/
def wordsGo (ws : List (List Char)) : Bool → List Char → Bool
  | _, [] => false
  | prevW, c :: rest =>
    (if prevW then false else ws.any fun w => tryWordAt w (c :: rest)) ||
      wordsGo ws (isWordChar c) rest

/-- First word of the (regex-alternation-ordered) list that whole-word
matches at the current position, with the remainder after it. -/
def firstWordRem : List (List Char) → List Char → Option (List Char)
  | [], _ => none
  | w :: ws, cs =>
    match ciMatchStart w cs with
    | some (_, r) => if boundaryAfter r then some r else firstWordRem ws cs
    | none => firstWordRem ws cs

/-- re.search for a pattern of the shape word1 then .* then word2 (the
stop/start + download co-occurrence patterns of src/script.py lines 135
and 139): a whole-word occurrence of one of the first words, followed
anywhere later by whole-word "download".  After the first word its
trailing boundary was consumed against a word character check, so the
scan of the remainder starts with prevW = true. -/
def wordThenDownloadGo (w1s : List (List Char)) : Bool → List Char → Bool
  | _, [] => false
  | prevW, c :: rest =>
    (if prevW then false else
      match firstWordRem w1s (c :: rest) with
      | some r2 => wordsGo ["download".data] true r2
      | none => false) ||
      wordThenDownloadGo w1s (isWordChar c) rest

/-- PAUSE_PATTERNS of src/script.py lines 133-136: the pause word
alternation, or stop(ped|ping)? followed by download.  The group
alternatives are ordered as the regex backtracks: ped, ping, empty. -/
def pauseMatch (cs : List Char) : Bool :=
  wordsGo ["paused".data, "pause".data, "pausing".data, "suspend".data,
    "suspended".data] false cs ||
  wordThenDownloadGo ["stopped".data, "stopping".data, "stop".data] false cs

/-- RESUME_PATTERNS of src/script.py lines 137-141: the resume word
alternation, start(ed|ing)? followed by download, or bare downloading. -/
def resumeMatch (cs : List Char) : Bool :=
  wordsGo ["resume".data, "resuming".data, "unpause".data,
    "continuing".data] false cs ||
  wordThenDownloadGo ["started".data, "starting".data, "start".data] false cs ||
  wordsGo ["downloading".data] false cs

/-- tail_lines of src/script.py lines 148-154 on an in-memory line list:
the last 8000 lines. -/
def tailLines (lines : List String) : List String :=
  lines.drop (lines.length - 8000)

/-- The loop body of infer_status_from_logs (src/script.py lines
158-165), already iterating newest-first: skip lines whose first AppID
token is absent or differs from the target; on the first remaining line,
pause patterns win over resume patterns, and a line matching neither is
skipped as well (the loop continues to older lines). -/
def statusScan (appid : String) : List String → Option String
  | [] => none
  | line :: older =>
    if lineMentions appid line then
      if pauseMatch line.data then some "PAUSED"
      else if resumeMatch line.data then some "DOWNLOADING"
      else statusScan appid older
    else statusScan appid older

/-- infer_status_from_logs of src/script.py lines 156-166, with the log
file content given as its line list. -/
def infer_status_from_logs (lines : List String) (appid : String) :
    Option String :=
  statusScan appid (tailLines lines).reverse

/-- Unit alternation of SPEED_RE (src/script.py lines 143-146), in regex
order; returns the matched slice of the line (group "unit" keeps the
original case). -/
def tryUnits : List String → List Char → Option (List Char)
  | [], _ => none
  | u :: us, cs =>
    match ciMatchStart u.data cs with
    | some (m, _) => some m
    | none => tryUnits us cs

/-- The six unit literals of SPEED_RE, in alternation order. -/
def speedUnits : List String :=
  ["KB/s", "MB/s", "GB/s", "Kbit/s", "Mbit/s", "Gbit/s"]

/-- Numeric value of a digit run. -/
def digitsToNat (ds : List Char) : Nat :=
  ds.foldl (fun acc c => acc * 10 + (c.toNat - 48)) 0

/-- float(m.group("val")) for an integer digit run and an optional
fractional digit run, as an exact rational (decimal-to-double rounding
of CPython is not modelled; no claim depends on it). -/
def decimalToRat (ds fs : List Char) : ℚ :=
  (digitsToNat ds : ℚ) + (digitsToNat fs : ℚ) / ((10 : ℚ) ^ fs.length)

/-- One attempt of SPEED_RE at the current position: maximal digit run,
optional "." plus maximal digit run, optional whitespace, then a unit
alternative.  The greedy runs never need backtracking because the
character classes of consecutive pieces are disjoint.  Returns the raw
captured groups: integer digits, fractional digits (empty when absent),
and the unit slice in its original case. -/
def speedTryAt (cs : List Char) : Option ((List Char × List Char) × String) :=
  let ds := cs.takeWhile Char.isDigit
  let r1 := cs.dropWhile Char.isDigit
  if ds.isEmpty then none
  else
    let fr := match r1 with
      | '.' :: r2 =>
        let fs := r2.takeWhile Char.isDigit
        if fs.isEmpty then (([] : List Char), r1)
        else (fs, r2.dropWhile Char.isDigit)
      | _ => (([] : List Char), r1)
    let r4 := fr.2.dropWhile Char.isWhitespace
    match tryUnits speedUnits r4 with
    | some m => some ((ds, fr.1), String.mk m)
    | none => none

/-- re.search scan for SPEED_RE: first position with a match wins. -/
def speedGo : List Char → Option ((List Char × List Char) × String)
  | [] => none
  | c :: rest =>
    match speedTryAt (c :: rest) with
    | some r => some r
    | none => speedGo rest

/-- First SPEED_RE match of the line: raw value groups and matched unit
text. -/
def speedSearch (cs : List Char) : Option ((List Char × List Char) × String) :=
  speedGo cs

/-- The loop body of infer_speed_from_logs (src/script.py lines
178-191), iterating newest-first: skip lines not mentioning the target;
on an identifier-matching line without a speed token, continue to older
lines; with one, return speed_to_bps of float(group) (none models the
except branch, which also stops the scan). -/
def speedScan (appid : String) : List String → Option ℚ
  | [] => none
  | line :: older =>
    if lineMentions appid line then
      match speedSearch line.data with
      | some vu => speed_to_bps (decimalToRat vu.1.1 vu.1.2) vu.2
      | none => speedScan appid older
    else speedScan appid older

/-- infer_speed_from_logs of src/script.py lines 176-191, with the log
file content given as its line list. -/
def infer_speed_from_logs (lines : List String) (appid : String) :
    Option ℚ :=
  speedScan appid (tailLines lines).reverse

/-- Status derivation of src/script.py lines 311-323: the exact
if/elif chain that turns the log-derived status and the two streak
counters into the printed status label (labels kept verbatim from the
source: PAUSE, DOWNLOADING, WAITING/STOPPED, UNKNOWN in Russian). -/
def deriveStatus (log_status : Option String) (no_net_streak : Nat)
    (no_download_progress_streak : Nat) : String :=
  if log_status = some "PAUSED" then "ПАУЗА"
  else if log_status = some "DOWNLOADING" then "ЗАГРУЗКА"
  else
    if no_net_streak ≥ 2 ∧ no_download_progress_streak ≥ 2 then
      "ОЖИДАНИЕ/СТОП"
    else if no_net_streak ≥ 2 then "ОЖИДАНИЕ/СТОП"
    else if no_download_progress_streak ≥ 2 then "ЗАГРУЗКА"
    else "НЕИЗВЕСТНО"

/-- The per-item mutable state of the polling loop in main
(src/script.py lines 251-263): tracked item, manifest baselines, network
counter and timestamp baselines, and the two streak counters. -/
structure LoopState where
  appid : String
  lib : String
  last_bd : Int
  last_bs : Int
  net0 : Nat
  t0 : ℚ
  no_download_progress_streak : Nat
  no_net_streak : Nat
deriving Repr, DecidableEq

/-- The external world sampled during one tick of main's loop: the
discovery result (find_active_downloads), the manifest file content of
the top active item (none = missing), the cumulative received-bytes
counter (psutil), the wall clock, and the content log's lines (none =
file absent, so both log inferences are skipped). -/
structure TickInput where
  active : List (String × String)
  manifestContent : Option String
  net_recv : Nat
  t : ℚ
  logLines : Option (List String)
deriving Repr, DecidableEq

/-- The payload of the status line printed by a successful tick
(src/script.py line 325), kept as structured data instead of the
formatted text. -/
structure Report where
  name : String
  bps : ℚ
  bd : Int
  btd : Int
  status : String
deriving Repr, DecidableEq

/-- One iteration of the for-loop body of main (src/script.py lines
264-329), after the sleep: returns none when the loop breaks (no active
downloads), otherwise the updated state and, except on an active-item
switch tick (lines 271-282, which reset all per-item state and skip
reporting), the report of the tick. -/
def loopTick (st : LoopState) (inp : TickInput) :
    Option (LoopState × Option Report) :=
  match inp.active with
  | [] => none
  | (appid_now, lib_now) :: _ =>
    if appid_now ≠ st.appid ∨ lib_now ≠ st.lib then
      let info := get_app_info appid_now inp.manifestContent
      some ({ appid := appid_now, lib := lib_now,
              last_bd := info.bd, last_bs := info.bs,
              net0 := inp.net_recv, t0 := inp.t,
              no_download_progress_streak := 0, no_net_streak := 0 }, none)
    else
      let info := get_app_info st.appid inp.manifestContent
      let bps_log := match inp.logLines with
        | none => none
        | some ls => infer_speed_from_logs ls st.appid
      let dt_net := max (1 / 1000000 : ℚ) (inp.t - st.t0)
      let recv_delta : Int := max 0 ((inp.net_recv : Int) - (st.net0 : Int))
      let bps_fallback := (recv_delta : ℚ) / dt_net
      let no_net_streak' :=
        if recv_delta = 0 then st.no_net_streak + 1 else 0
      let bps := match bps_log with
        | some b => b
        | none => bps_fallback
      let log_status := match inp.logLines with
        | none => none
        | some ls => infer_status_from_logs ls st.appid
      let no_download_progress_streak' :=
        if info.bd = st.last_bd then st.no_download_progress_streak + 1
        else 0
      let status := deriveStatus log_status no_net_streak'
        no_download_progress_streak'
      some ({ appid := st.appid, lib := st.lib,
              last_bd := info.bd, last_bs := info.bs,
              net0 := inp.net_recv, t0 := inp.t,
              no_download_progress_streak := no_download_progress_streak',
              no_net_streak := no_net_streak' },
        some { name := info.name, bps := bps, bd := info.bd,
               btd := info.btd, status := status })

/-- Instrumented copy of parseObjectF used only to state the amended
truncation claim: same computation, plus a Bool that is true exactly
when no kvInsert during the whole parse (at any nesting level) hit an
already-present key, i.e. the input binds every key at most once per
mapping level along the actual parse. -/
def parseObjChk : Nat → List (String × KV) → List String →
    Option (List (String × KV) × List String × Bool)
  | 0, _, _ => none
  | _ + 1, acc, [] => some (acc, [], true)
  | fuel + 1, acc, tok :: rest =>
    if tok = "\x7d" then some (acc, rest, true)
    else
      match rest with
      | [] => some (acc, [], true)
      | nxt :: rest2 =>
        if nxt = "\x7b" then
          match parseObjChk fuel [] rest2 with
          | none => none
          | some (child, rest3, ok1) =>
            match parseObjChk fuel (kvInsert acc tok (KV.obj child)) rest3 with
            | none => none
            | some (o, r, ok2) =>
              some (o, r, !kvHasKey acc tok && ok1 && ok2)
        else
          match parseObjChk fuel (kvInsert acc tok (KV.str nxt)) rest2 with
          | none => none
          | some (o, r, ok2) => some (o, r, !kvHasKey acc tok && ok2)

/-- A token list is duplicate-free when its full parse never overwrites
a key. -/
def dupFreeTokens (ts : List String) : Bool :=
  match parseObjChk (ts.length + 1) [] ts with
  | some (_, _, b) => b
  | none => false

mutual

/-- Partial-tree order on parsed values: a string is below itself, and
a mapping is below another mapping when its bindings are a pointwise
prefix of the other's. -/
def isSubVal : KV → KV → Bool
  | KV.str a, KV.str b => a = b
  | KV.obj p, KV.obj f => isSubObj p f
  | _, _ => false

/-- Pointwise prefix of binding lists: every binding of the left list
is matched, in order, by a binding of the right list with the same key
and a value above it; the right list may continue further. -/
def isSubObj : List (String × KV) → List (String × KV) → Bool
  | [], _ => true
  | _ :: _, [] => false
  | (k, v) :: ps, (k2, v2) :: fs => k = k2 && isSubVal v v2 && isSubObj ps fs

end

/-- The parser consumes tokens: the unconsumed rest is no longer than
the input. -/
theorem parseObjChk_rest_length : ∀ f acc ts o r b,
    parseObjChk f acc ts = some (o, r, b) → r.length ≤ ts.length := by
  intro f
  induction f with
  | zero => intro acc ts o r b h; simp [parseObjChk] at h
  | succ f ih =>
    intro acc ts o r b h
    match ts with
    | [] =>
      simp [parseObjChk] at h
      obtain ⟨-, h2, -⟩ := h
      simp [← h2]
    | tok :: rest =>
      by_cases htok : tok = "\x7d"
      · simp [parseObjChk, htok] at h
        obtain ⟨-, h2, -⟩ := h
        simp [← h2]
      · match rest with
        | [] =>
          simp [parseObjChk, htok] at h
          obtain ⟨-, h2, -⟩ := h
          simp [← h2]
        | nxt :: rest2 =>
          by_cases hnxt : nxt = "\x7b"
          · simp only [parseObjChk, htok, hnxt, ite_true, ite_false, if_neg,
              not_false_eq_true] at h
            cases hin : parseObjChk f [] rest2 with
            | none => rw [hin] at h; exact absurd h (by simp)
            | some x =>
              obtain ⟨child, rest3, ok1⟩ := x
              rw [hin] at h
              dsimp only at h
              cases hc : parseObjChk f (kvInsert acc tok (KV.obj child)) rest3 with
              | none => rw [hc] at h; exact absurd h (by simp)
              | some y =>
                obtain ⟨o2, r2, ok2⟩ := y
                rw [hc] at h
                simp at h
                obtain ⟨-, h2, -⟩ := h
                have l1 := ih _ _ _ _ _ hin
                have l2 := ih _ _ _ _ _ hc
                subst h2
                simp only [List.length_cons]
                omega
          · simp only [parseObjChk, htok, hnxt, ite_true, ite_false, if_neg,
              not_false_eq_true] at h
            cases hc : parseObjChk f (kvInsert acc tok (KV.str nxt)) rest2 with
            | none => rw [hc] at h; exact absurd h (by simp)
            | some y =>
              obtain ⟨o2, r2, ok2⟩ := y
              rw [hc] at h
              simp at h
              obtain ⟨-, h2, -⟩ := h
              have l2 := ih _ _ _ _ _ hc
              subst h2
              simp only [List.length_cons]
              omega

/-- Fuel adequacy: with more fuel than tokens the parser always
returns. -/
theorem parseObjChk_isSome : ∀ f acc ts, ts.length < f →
    (parseObjChk f acc ts).isSome = true := by
  intro f
  induction f with
  | zero => intro acc ts h; omega
  | succ f ih =>
    intro acc ts hlen
    match ts with
    | [] => simp [parseObjChk]
    | tok :: rest =>
      by_cases htok : tok = "\x7d"
      · simp [parseObjChk, htok]
      · match rest with
        | [] => simp [parseObjChk, htok]
        | nxt :: rest2 =>
          by_cases hnxt : nxt = "\x7b"
          · simp only [parseObjChk, htok, hnxt, ite_true, ite_false, if_neg,
              not_false_eq_true]
            have hin : (parseObjChk f [] rest2).isSome = true := by
              apply ih
              simp only [List.length_cons] at hlen
              omega
            cases hin2 : parseObjChk f [] rest2 with
            | none => rw [hin2] at hin; simp at hin
            | some x =>
              obtain ⟨child, rest3, ok1⟩ := x
              dsimp only
              have l1 := parseObjChk_rest_length f [] rest2 child rest3 ok1 hin2
              have hc : (parseObjChk f (kvInsert acc tok (KV.obj child))
                  rest3).isSome = true := by
                apply ih
                simp only [List.length_cons] at hlen
                omega
              cases hc2 : parseObjChk f (kvInsert acc tok (KV.obj child))
                  rest3 with
              | none => rw [hc2] at hc; simp at hc
              | some y => obtain ⟨o2, r2, ok2⟩ := y; simp
          · simp only [parseObjChk, htok, hnxt, ite_true, ite_false, if_neg,
              not_false_eq_true]
            have hc : (parseObjChk f (kvInsert acc tok (KV.str nxt))
                rest2).isSome = true := by
              apply ih
              simp only [List.length_cons] at hlen
              omega
            cases hc2 : parseObjChk f (kvInsert acc tok (KV.str nxt)) rest2 with
            | none => rw [hc2] at hc; simp at hc
            | some y => obtain ⟨o2, r2, ok2⟩ := y; simp

/-- The plain parser is the instrumented parser with the flag
projected away. -/
theorem parseObjectF_eq_chk : ∀ f acc ts,
    parseObjectF f acc ts =
      (parseObjChk f acc ts).map fun x => (x.1, x.2.1) := by
  intro f
  induction f with
  | zero => intro acc ts; simp [parseObjectF, parseObjChk]
  | succ f ih =>
    intro acc ts
    match ts with
    | [] => simp [parseObjectF, parseObjChk]
    | tok :: rest =>
      by_cases htok : tok = "\x7d"
      · simp [parseObjectF, parseObjChk, htok]
      · match rest with
        | [] => simp [parseObjectF, parseObjChk, htok]
        | nxt :: rest2 =>
          by_cases hnxt : nxt = "\x7b"
          · simp only [parseObjectF, parseObjChk, htok, hnxt, ite_true,
              ite_false, if_neg, not_false_eq_true]
            cases hin : parseObjChk f [] rest2 with
            | none => rw [ih [] rest2, hin]; simp
            | some x =>
              obtain ⟨child, rest3, ok1⟩ := x
              rw [ih [] rest2, hin]
              dsimp only [Option.map]
              rw [ih (kvInsert acc tok (KV.obj child)) rest3]
              cases hc : parseObjChk f (kvInsert acc tok (KV.obj child))
                  rest3 with
              | none => simp
              | some y => obtain ⟨o2, r2, ok2⟩ := y; simp
          · simp only [parseObjectF, parseObjChk, htok, hnxt, ite_true,
              ite_false, if_neg, not_false_eq_true]
            rw [ih (kvInsert acc tok (KV.str nxt)) rest2]
            cases hc : parseObjChk f (kvInsert acc tok (KV.str nxt)) rest2 with
            | none => simp
            | some y => obtain ⟨o2, r2, ok2⟩ := y; simp

/-- Fuel monotonicity: a result obtained with some fuel is stable under
more fuel. -/
theorem parseObjChk_mono : ∀ f f2 acc ts x, f ≤ f2 →
    parseObjChk f acc ts = some x → parseObjChk f2 acc ts = some x := by
  intro f
  induction f with
  | zero => intro f2 acc ts x hle h; simp [parseObjChk] at h
  | succ f ih =>
    intro f2 acc ts x hle h
    match f2, hle with
    | f2 + 1, hle =>
      have hle2 : f ≤ f2 := by omega
      match ts with
      | [] => simpa [parseObjChk] using h
      | tok :: rest =>
        by_cases htok : tok = "\x7d"
        · simpa [parseObjChk, htok] using h
        · match rest with
          | [] => simpa [parseObjChk, htok] using h
          | nxt :: rest2 =>
            by_cases hnxt : nxt = "\x7b"
            · simp only [parseObjChk, htok, hnxt, ite_true, ite_false, if_neg,
                not_false_eq_true] at h ⊢
              cases hin : parseObjChk f [] rest2 with
              | none => rw [hin] at h; exact absurd h (by simp)
              | some y =>
                obtain ⟨child, rest3, ok1⟩ := y
                rw [hin] at h
                dsimp only at h
                rw [ih f2 [] rest2 _ hle2 hin]
                dsimp only
                cases hc : parseObjChk f (kvInsert acc tok (KV.obj child))
                    rest3 with
                | none => rw [hc] at h; exact absurd h (by simp)
                | some z =>
                  rw [hc] at h
                  rw [ih f2 _ rest3 _ hle2 hc]
                  exact h
            · simp only [parseObjChk, htok, hnxt, ite_true, ite_false, if_neg,
                not_false_eq_true] at h ⊢
              cases hc : parseObjChk f (kvInsert acc tok (KV.str nxt))
                  rest2 with
              | none => rw [hc] at h; exact absurd h (by simp)
              | some z =>
                rw [hc] at h
                rw [ih f2 _ rest2 _ hle2 hc]
                exact h

/-- Inserting a fresh key appends the binding. -/
theorem kvInsert_eq_append : ∀ acc k v, kvHasKey acc k = false →
    kvInsert acc k v = acc ++ [(k, v)] := by
  intro acc k v h
  induction acc with
  | nil => simp [kvInsert]
  | cons e rest ih =>
    obtain ⟨k0, v0⟩ := e
    simp only [kvHasKey, Bool.or_eq_false_iff] at h
    obtain ⟨h1, h2⟩ := h
    simp only [kvInsert, h1]
    rw [if_neg (by simpa using h1), ih h2]
    simp

/-- On a duplicate-free run the parser only appends to its accumulator:
the returned object extends the starting accumulator. -/
theorem parseObjChk_acc_append : ∀ f acc ts o r,
    parseObjChk f acc ts = some (o, r, true) →
    ∃ ext, o = acc ++ ext := by
  intro f
  induction f with
  | zero => intro acc ts o r h; simp [parseObjChk] at h
  | succ f ih =>
    intro acc ts o r h
    match ts with
    | [] =>
      simp [parseObjChk] at h
      exact ⟨[], by simp [← h.1]⟩
    | tok :: rest =>
      by_cases htok : tok = "\x7d"
      · simp [parseObjChk, htok] at h
        exact ⟨[], by simp [← h.1]⟩
      · match rest with
        | [] =>
          simp [parseObjChk, htok] at h
          exact ⟨[], by simp [← h.1]⟩
        | nxt :: rest2 =>
          by_cases hnxt : nxt = "\x7b"
          · simp only [parseObjChk, htok, hnxt, ite_true, ite_false, if_neg,
              not_false_eq_true] at h
            cases hin : parseObjChk f [] rest2 with
            | none => rw [hin] at h; exact absurd h (by simp)
            | some x =>
              obtain ⟨child, rest3, ok1⟩ := x
              rw [hin] at h
              dsimp only at h
              cases hc : parseObjChk f (kvInsert acc tok (KV.obj child))
                  rest3 with
              | none => rw [hc] at h; exact absurd h (by simp)
              | some y =>
                obtain ⟨o2, r2, ok2⟩ := y
                rw [hc] at h
                simp only [Option.some.injEq, Prod.mk.injEq] at h
                obtain ⟨ho, -, hflag⟩ := h
                have hkey : kvHasKey acc tok = false := by
                  cases hk : kvHasKey acc tok with
                  | false => rfl
                  | true => rw [hk] at hflag; simp at hflag
                have hok2 : ok2 = true := by
                  cases h2 : ok2 with
                  | true => rfl
                  | false => rw [h2] at hflag; simp at hflag
                subst hok2
                obtain ⟨ext2, hext⟩ := ih _ _ _ _ hc
                refine ⟨(tok, KV.obj child) :: ext2, ?_⟩
                rw [← ho, hext, kvInsert_eq_append acc tok _ hkey]
                simp
          · simp only [parseObjChk, htok, hnxt, ite_true, ite_false, if_neg,
              not_false_eq_true] at h
            cases hc : parseObjChk f (kvInsert acc tok (KV.str nxt)) rest2 with
            | none => rw [hc] at h; exact absurd h (by simp)
            | some y =>
              obtain ⟨o2, r2, ok2⟩ := y
              rw [hc] at h
              simp only [Option.some.injEq, Prod.mk.injEq] at h
              obtain ⟨ho, -, hflag⟩ := h
              have hkey : kvHasKey acc tok = false := by
                cases hk : kvHasKey acc tok with
                | false => rfl
                | true => rw [hk] at hflag; simp at hflag
              have hok2 : ok2 = true := by
                cases h2 : ok2 with
                | true => rfl
                | false => rw [h2] at hflag; simp at hflag
              subst hok2
              obtain ⟨ext2, hext⟩ := ih _ _ _ _ hc
              refine ⟨(tok, KV.str nxt) :: ext2, ?_⟩
              rw [← ho, hext, kvInsert_eq_append acc tok _ hkey]
              simp

mutual

/-- The partial-tree order is reflexive on values. -/
theorem isSubVal_refl : (v : KV) → isSubVal v v = true
  | KV.str a => by simp [isSubVal]
  | KV.obj p => by simpa [isSubVal] using isSubObj_refl p

/-- The partial-tree order is reflexive on binding lists. -/
theorem isSubObj_refl : (l : List (String × KV)) → isSubObj l l = true
  | [] => by simp [isSubObj]
  | (k, v) :: ps => by
    simp [isSubObj, isSubVal_refl v, isSubObj_refl ps]

end

/-- Extending both sides on the left by the same bindings preserves the
partial-tree order. -/
theorem isSubObj_append_left : ∀ l p q, isSubObj p q = true →
    isSubObj (l ++ p) (l ++ q) = true := by
  intro l
  induction l with
  | nil => intro p q h; simpa using h
  | cons e rest ih =>
    intro p q h
    obtain ⟨k, v⟩ := e
    simp [List.cons_append, isSubObj, isSubVal_refl v]
    exact ih p q h

/-- A binding list is below any right extension of itself. -/
theorem isSubObj_self_append : ∀ l e, isSubObj l (l ++ e) = true := by
  intro l e
  have h := isSubObj_append_left l [] e (by simp [isSubObj])
  simpa using h

/-- Zero fuel never returns. -/
theorem parseObjChk_pos : ∀ f acc ts x, parseObjChk f acc ts = some x →
    1 ≤ f := by
  intro f acc ts x h
  cases f with
  | zero => simp [parseObjChk] at h
  | succ f => omega

/-- Truncation lemma: if the duplicate-free full input ts1 ++ ts2 parses
to o2 with rest r2, then parsing the truncated input ts1 from the same
accumulator either already finished inside ts1 with the same object (and
the full rest just carries ts2 along), or ran out of tokens and produced
a partial object below o2. -/
theorem parseTrunc_main : ∀ f ts1 ts2 acc o2 r2,
    parseObjChk f acc (ts1 ++ ts2) = some (o2, r2, true) →
    (∃ r1, parseObjectF f acc ts1 = some (o2, r1) ∧ r2 = r1 ++ ts2) ∨
    (∃ o1, parseObjectF f acc ts1 = some (o1, []) ∧ isSubObj o1 o2 = true) := by
  intro f
  induction f with
  | zero => intro ts1 ts2 acc o2 r2 h; simp [parseObjChk] at h
  | succ f ih =>
    intro ts1 ts2 acc o2 r2 h
    match ts1 with
    | [] =>
      right
      refine ⟨acc, by simp [parseObjectF], ?_⟩
      obtain ⟨ext, hext⟩ := parseObjChk_acc_append _ _ _ _ _ (by simpa using h)
      rw [hext]
      exact isSubObj_self_append acc ext
    | tok :: rest1 =>
      by_cases htok : tok = "\x7d"
      · left
        simp only [List.cons_append] at h
        simp [parseObjChk, htok] at h
        obtain ⟨h1, h2⟩ := h
        exact ⟨rest1, by simp [parseObjectF, htok, ← h1], by simp [← h2]⟩
      · match rest1 with
        | [] =>
          right
          refine ⟨acc, by simp [parseObjectF, htok], ?_⟩
          obtain ⟨ext, hext⟩ :=
            parseObjChk_acc_append _ _ _ _ _ (by simpa using h)
          rw [hext]
          exact isSubObj_self_append acc ext
        | nxt :: rest1' =>
          by_cases hnxt : nxt = "\x7b"
          · simp only [List.cons_append] at h
            simp only [parseObjChk, htok, hnxt, ite_true, ite_false, if_neg,
              not_false_eq_true] at h
            cases hin : parseObjChk f [] (rest1' ++ ts2) with
            | none => rw [hin] at h; exact absurd h (by simp)
            | some x =>
              obtain ⟨childF, restF, ok1⟩ := x
              rw [hin] at h
              dsimp only at h
              cases hc : parseObjChk f (kvInsert acc tok (KV.obj childF))
                  restF with
              | none => rw [hc] at h; exact absurd h (by simp)
              | some y =>
                obtain ⟨o2', r2', ok2⟩ := y
                rw [hc] at h
                simp only [Option.some.injEq, Prod.mk.injEq] at h
                obtain ⟨ho, hr, hflag⟩ := h
                simp only [Bool.and_eq_true, Bool.not_eq_true'] at hflag
                obtain ⟨⟨hkey, hok1⟩, hok2⟩ := hflag
                rw [ho, hr, hok2] at hc
                rw [hok1] at hin
                have hf1 : 1 ≤ f := parseObjChk_pos _ _ _ _ hin
                rcases ih rest1' ts2 [] childF restF hin with
                  ⟨rI, haI, hrI⟩ | ⟨childT, hbI, hsub⟩
                · subst hrI
                  rcases ih rI ts2 (kvInsert acc tok (KV.obj childF)) o2 r2
                      hc with ⟨r1, ha2, hr2⟩ | ⟨o1, hb2, hsub2⟩
                  · left
                    refine ⟨r1, ?_, hr2⟩
                    simp only [parseObjectF, htok, hnxt, ite_true, ite_false,
                      if_neg, not_false_eq_true]
                    rw [haI]
                    exact ha2
                  · right
                    refine ⟨o1, ?_, hsub2⟩
                    simp only [parseObjectF, htok, hnxt, ite_true, ite_false,
                      if_neg, not_false_eq_true]
                    rw [haI]
                    exact hb2
                · right
                  refine ⟨kvInsert acc tok (KV.obj childT), ?_, ?_⟩
                  · simp only [parseObjectF, htok, hnxt, ite_true, ite_false,
                      if_neg, not_false_eq_true]
                    rw [hbI]
                    match f, hf1 with
                    | f + 1, _ => simp [parseObjectF]
                  · obtain ⟨ext, hext⟩ := parseObjChk_acc_append _ _ _ _ _ hc
                    rw [hext, kvInsert_eq_append acc tok _ hkey,
                      kvInsert_eq_append acc tok _ hkey, List.append_assoc]
                    apply isSubObj_append_left
                    simp [isSubObj, isSubVal, hsub]
          · simp only [List.cons_append] at h
            simp only [parseObjChk, htok, hnxt, ite_true, ite_false, if_neg,
              not_false_eq_true] at h
            cases hc : parseObjChk f (kvInsert acc tok (KV.str nxt))
                (rest1' ++ ts2) with
            | none => rw [hc] at h; exact absurd h (by simp)
            | some y =>
              obtain ⟨o2', r2', ok2⟩ := y
              rw [hc] at h
              simp only [Option.some.injEq, Prod.mk.injEq] at h
              obtain ⟨ho, hr, hflag⟩ := h
              simp only [Bool.and_eq_true, Bool.not_eq_true'] at hflag
              obtain ⟨hkey, hok2⟩ := hflag
              rw [ho, hr, hok2] at hc
              rcases ih rest1' ts2 (kvInsert acc tok (KV.str nxt)) o2 r2
                  hc with ⟨r1, ha2, hr2⟩ | ⟨o1, hb2, hsub2⟩
              · left
                refine ⟨r1, ?_, hr2⟩
                simp only [parseObjectF, htok, hnxt, ite_true, ite_false,
                  if_neg, not_false_eq_true]
                exact ha2
              · right
                refine ⟨o1, ?_, hsub2⟩
                simp only [parseObjectF, htok, hnxt, ite_true, ite_false,
                  if_neg, not_false_eq_true]
                exact hb2

/-- Totality of the plain parser at the fuel parse_keyvalues supplies:
the recursion always terminates with a result, on every token list and
every accumulator. -/
theorem parseObjectF_total : ∀ acc ts,
    (parseObjectF (ts.length + 1) acc ts).isSome = true := by
  intro acc ts
  rw [parseObjectF_eq_chk]
  have h := parseObjChk_isSome (ts.length + 1) acc ts (by omega)
  cases hc : parseObjChk (ts.length + 1) acc ts with
  | none => rw [hc] at h; simp at h
  | some x => simp

/-- Fuel monotonicity for the plain parser. -/
theorem parseObjectF_mono : ∀ f f2 acc ts x, f ≤ f2 →
    parseObjectF f acc ts = some x → parseObjectF f2 acc ts = some x := by
  intro f f2 acc ts x hle h
  rw [parseObjectF_eq_chk] at h ⊢
  cases hc : parseObjChk f acc ts with
  | none => rw [hc] at h; simp at h
  | some y =>
    rw [parseObjChk_mono f f2 acc ts y hle hc]
    rw [hc] at h
    exact h

/-- The classification the status scan applies to one
identifier-matching line. -/
def classifyStatusLine (l : String) : Option String :=
  if pauseMatch l.data then some "PAUSED"
  else if resumeMatch l.data then some "DOWNLOADING"
  else none

/-- The status scan is the first pause/resume classification among the
identifier-matching lines, in scan order: lines mentioning the
identifier but matching neither pattern family are passed over. -/
theorem statusScan_eq_findSome : ∀ appid ls,
    statusScan appid ls =
      (ls.filter fun l => lineMentions appid l).findSome?
        classifyStatusLine := by
  intro appid ls
  induction ls with
  | nil => simp [statusScan]
  | cons l older ih =>
    by_cases hm : lineMentions appid l
    · by_cases hp : pauseMatch l.data
      · simp [statusScan, hm, hp, List.filter_cons, List.findSome?_cons,
          classifyStatusLine]
      · by_cases hr : resumeMatch l.data
        · simp [statusScan, hm, hp, hr, List.filter_cons,
            List.findSome?_cons, classifyStatusLine]
        · simp [statusScan, hm, hp, hr, List.filter_cons,
            List.findSome?_cons, classifyStatusLine, ih]
    · simp [statusScan, hm, List.filter_cons, ih]

/-- A case-insensitive literal match lowercases to the pattern. -/
theorem ciMatchStart_lower : ∀ p cs m r, ciMatchStart p cs = some (m, r) →
    m.map Char.toLower = p.map Char.toLower := by
  intro p
  induction p with
  | nil =>
    intro cs m r h
    simp [ciMatchStart] at h
    obtain ⟨h1, -⟩ := h
    simp [← h1]
  | cons pc pr ih =>
    intro cs m r h
    match cs with
    | [] => simp [ciMatchStart] at h
    | c :: cs2 =>
      simp only [ciMatchStart] at h
      by_cases hc : c.toLower = pc.toLower
      · rw [if_pos hc] at h
        cases hrec : ciMatchStart pr cs2 with
        | none => rw [hrec] at h; simp at h
        | some x =>
          obtain ⟨m2, r2⟩ := x
          rw [hrec] at h
          simp at h
          obtain ⟨hm, -⟩ := h
          rw [← hm]
          simp only [List.map_cons, hc]
          rw [ih cs2 m2 r2 hrec]
      · rw [if_neg hc] at h
        simp at h

/-- The unit slice returned by the alternation lowercases to one of the
six unit literals. -/
theorem tryUnits_lower : ∀ us cs m, tryUnits us cs = some m →
    ∃ u ∈ us, strLower (String.mk m) = strLower u := by
  intro us
  induction us with
  | nil => intro cs m h; simp [tryUnits] at h
  | cons u us2 ih =>
    intro cs m h
    simp only [tryUnits] at h
    cases hm : ciMatchStart u.data cs with
    | none =>
      rw [hm] at h
      obtain ⟨u2, hu2, he⟩ := ih cs m h
      exact ⟨u2, by simp [hu2], he⟩
    | some x =>
      obtain ⟨m2, r2⟩ := x
      rw [hm] at h
      simp only [Option.some.injEq] at h
      have hl := ciMatchStart_lower u.data cs m2 r2 hm
      refine ⟨u, by simp, ?_⟩
      rw [← h]
      simp only [strLower, hl]

/-- speed_to_bps succeeds on anything that lowercases to one of the six
regex units: the KeyError branch is unreachable from a SPEED_RE
match. -/
theorem speed_to_bps_isSome : ∀ v u,
    (∃ canon ∈ speedUnits, strLower u = strLower canon) →
    (speed_to_bps v u).isSome = true := by
  intro v u h
  obtain ⟨canon, hmem, he⟩ := h
  simp only [speedUnits, List.mem_cons, List.not_mem_nil, or_false] at hmem
  rcases hmem with h1 | h1 | h1 | h1 | h1 | h1
  · subst h1
    have hc : strLower "KB/s" = "kb/s" := by decide
    rw [hc] at he
    have h2 : strEndsWith "kb/s" "bit/s" = false := by decide
    simp [speed_to_bps, he, h2]
  · subst h1
    have hc : strLower "MB/s" = "mb/s" := by decide
    rw [hc] at he
    have h2 : strEndsWith "mb/s" "bit/s" = false := by decide
    simp [speed_to_bps, he, h2]
  · subst h1
    have hc : strLower "GB/s" = "gb/s" := by decide
    rw [hc] at he
    have h2 : strEndsWith "gb/s" "bit/s" = false := by decide
    simp [speed_to_bps, he, h2]
  · subst h1
    have hc : strLower "Kbit/s" = "kbit/s" := by decide
    rw [hc] at he
    have h2 : strEndsWith "kbit/s" "bit/s" = true := by decide
    simp [speed_to_bps, he, h2]
  · subst h1
    have hc : strLower "Mbit/s" = "mbit/s" := by decide
    rw [hc] at he
    have h2 : strEndsWith "mbit/s" "bit/s" = true := by decide
    simp [speed_to_bps, he, h2]
  · subst h1
    have hc : strLower "Gbit/s" = "gbit/s" := by decide
    rw [hc] at he
    have h2 : strEndsWith "gbit/s" "bit/s" = true := by decide
    simp [speed_to_bps, he, h2]

/-- The unit of a successful SPEED_RE attempt lowercases to a known
unit. -/
theorem speedTryAt_unit : ∀ cs p u, speedTryAt cs = some (p, u) →
    ∃ canon ∈ speedUnits, strLower u = strLower canon := by
  intro cs p u h
  simp only [speedTryAt] at h
  split at h
  · simp at h
  · split at h
    · next m hm =>
      simp only [Option.some.injEq, Prod.mk.injEq] at h
      obtain ⟨-, hu⟩ := h
      obtain ⟨canon, hmem, he⟩ := tryUnits_lower speedUnits _ m hm
      exact ⟨canon, hmem, by rw [← hu]; exact he⟩
    · simp at h

/-- The unit of the first SPEED_RE match lowercases to a known unit. -/
theorem speedSearch_unit : ∀ cs p u, speedSearch cs = some (p, u) →
    ∃ canon ∈ speedUnits, strLower u = strLower canon := by
  intro cs
  induction cs with
  | nil => intro p u h; simp [speedSearch, speedGo] at h
  | cons c rest ih =>
    intro p u h
    simp only [speedSearch, speedGo] at h
    cases hc : speedTryAt (c :: rest) with
    | none =>
      rw [hc] at h
      exact ih p u (by simpa [speedSearch] using h)
    | some x =>
      rw [hc] at h
      simp only [Option.some.injEq] at h
      rw [h] at hc
      exact speedTryAt_unit (c :: rest) p u hc

/-- The extraction the speed scan applies to one identifier-matching
line. -/
def classifySpeedLine (l : String) : Option ℚ :=
  match speedSearch l.data with
  | some vu => speed_to_bps (decimalToRat vu.1.1 vu.1.2) vu.2
  | none => none

/-- The speed scan is the first speed extraction among the
identifier-matching lines, in scan order: identifier-matching lines
without a speed token are passed over (the stop-on-exception branch of
the source never fires, because a matched unit is always
recognized). -/
theorem speedScan_eq_findSome : ∀ appid ls,
    speedScan appid ls =
      (ls.filter fun l => lineMentions appid l).findSome?
        classifySpeedLine := by
  intro appid ls
  induction ls with
  | nil => simp [speedScan]
  | cons l older ih =>
    by_cases hm : lineMentions appid l
    · cases hs : speedSearch l.data with
      | none =>
        simp [speedScan, hm, hs, List.filter_cons, List.findSome?_cons,
          classifySpeedLine, ih]
      | some vu =>
        obtain ⟨p, u⟩ := vu
        have hsome := speed_to_bps_isSome (decimalToRat p.1 p.2) u
          (speedSearch_unit l.data p u hs)
        cases hb : speed_to_bps (decimalToRat p.1 p.2) u with
        | none => rw [hb] at hsome; simp at hsome
        | some b =>
          simp [speedScan, hm, hs, hb, List.filter_cons,
            List.findSome?_cons, classifySpeedLine]
    · simp [speedScan, hm, List.filter_cons, ih]

/-- Stripping a list that starts with a non-whitespace character yields
the empty list or a list starting with the same character. -/
theorem pyStrip_head : ∀ c l, c.isWhitespace = false →
    pyStrip (c :: l) = [] ∨ ∃ t, pyStrip (c :: l) = c :: t := by
  intro c l hc
  have h1 : (c :: l).dropWhile Char.isWhitespace = c :: l :=
    List.dropWhile_cons_of_neg (by simp [hc])
  unfold pyStrip
  rw [h1]
  have hsuf := List.dropWhile_suffix (l := (c :: l).reverse)
    Char.isWhitespace
  have hpre := (List.reverse_prefix).mpr hsuf
  rw [List.reverse_reverse] at hpre
  rcases hpre with ⟨u, hu⟩
  cases hh : ((c :: l).reverse.dropWhile Char.isWhitespace).reverse with
  | nil => exact Or.inl rfl
  | cons c2 t2 =>
    right
    rw [hh] at hu
    simp only [List.cons_append, List.cons.injEq] at hu
    exact ⟨t2, by rw [hu.1]⟩

/-- int() fails on input whose first stripped character is neither a
sign nor a digit. -/
theorem pyIntCore_nonnum_head : ∀ c rest, c ≠ '+' → c ≠ '-' →
    c.isDigit = false → pyIntCore (c :: rest) = none := by
  intro c rest h1 h2 h3
  simp [pyIntCore, h1, h2, pyNatStart, h3]

/-- int(str(x)) fails when x is a dict: its repr starts with an open
brace. -/
theorem pyIntParse_reprObj : ∀ o, pyIntParse (pyReprKV (KV.obj o)) = none := by
  intro o
  have hd : ∃ tl, (pyReprKV (KV.obj o)).data = '\x7b' :: tl := by
    refine ⟨(pyReprEntries o).data ++ "\x7d".data, ?_⟩
    show ("\x7b" ++ pyReprEntries o ++ "\x7d").data = _
    rw [String.data_append, String.data_append]
    rfl
  obtain ⟨tl, hd⟩ := hd
  unfold pyIntParse
  rw [hd]
  rcases pyStrip_head '\x7b' tl (by decide) with h | ⟨t, h⟩
  · rw [h]; rfl
  · rw [h]
    exact pyIntCore_nonnum_head _ _ (by decide) (by decide) (by decide)

/-- Looking up a key right after inserting it yields the inserted value:
the last assignment to a key wins. -/
theorem kvLookup_kvInsert : ∀ o k v, kvLookup (kvInsert o k v) k = some v := by
  intro o k v
  induction o with
  | nil => simp [kvInsert, kvLookup]
  | cons e rest ih =>
    obtain ⟨k0, v0⟩ := e
    by_cases hk : k0 = k
    · simp [kvInsert, kvLookup, hk]
    · simp [kvInsert, kvLookup, hk, ih]

/-- Claim C4: for every input string, including malformed, unbalanced or
truncated input, parse_keyvalues returns a mapping without raising any
error; a truncated input yields the partially built tree.  The first
conjunct is the totality of the parser loop at the fuel parse_keyvalues
supplies, for every token list and accumulator (the source checks every
index before use, so no other failure mode exists; operating-system
resource exhaustion such as hitting the interpreter recursion limit is
outside the embedding).  The remaining conjuncts evaluate truncated
inputs: a dangling key is dropped, an unclosed brace group yields the
partial subtree built so far. -/
theorem c4_parser_total_and_truncation :
    (∀ acc ts, (parseObjectF (ts.length + 1) acc ts).isSome = true) ∧
    parse_keyvalues "\"a\" \"b\" \"c\"" = [("a", KV.str "b")] ∧
    parse_keyvalues "\"k\" \x7b \"a\" \"b\"" =
      [("k", KV.obj [("a", KV.str "b")])] ∧
    parse_keyvalues "\"k\" \x7b \"a\" \x7b \"x\" \"y\"" =
      [("k", KV.obj [("a", KV.obj [("x", KV.str "y")])])] :=
  ⟨parseObjectF_total, rfl, rfl, rfl⟩

/-- Claim C9 (implicit): when the same quoted key occurs more than once
at the same nesting level, parse_keyvalues keeps only the binding of the
last occurrence; earlier bindings are silently overwritten, even a
nested mapping by a plain string.  First conjunct: inserting a key
always makes the lookup return the new value; then two whole-parser
evaluations, the second overwriting a nested mapping with a string. -/
theorem c9_duplicate_keys_last_wins :
    (∀ o k v, kvLookup (kvInsert o k v) k = some v) ∧
    parse_keyvalues "\"a\" \"1\" \"a\" \"2\"" = [("a", KV.str "2")] ∧
    parse_keyvalues "\"a\" \x7b \"x\" \"y\" \x7d \"a\" \"v\"" =
      [("a", KV.str "v")] :=
  ⟨kvLookup_kvInsert, rfl, rfl⟩

/-- Claim C10 (implicit): the tokenizer collapses quoted strings and
structural braces into indistinguishable bare tokens.  A quoted
open-brace string in value position opens a nested mapping; a
close-brace token in value position is stored as the literal value and
does not close the mapping (parsing continues with the following pair);
a close-brace token, even a quoted one, closes the mapping when it
stands in key position. -/
theorem c10_brace_token_collapse :
    tokenize "\"\x7b\"".data = tokenize "\x7b".data ∧
    parse_keyvalues "\"k\" \"\x7b\" \"a\" \"b\"" =
      [("k", KV.obj [("a", KV.str "b")])] ∧
    parse_keyvalues "\"k\" \"\x7d\" \"x\" \"y\"" =
      [("k", KV.str "\x7d"), ("x", KV.str "y")] ∧
    parse_keyvalues "\"a\" \"b\" \"\x7d\" \"c\" \"d\"" = [("a", KV.str "b")] :=
  ⟨rfl, rfl, rfl, rfl⟩

/-- Claim C7: speed-unit conversion multiplies byte-rate units by the
power-of-1024 multiplier, bit-rate units additionally divide by 8; in
particular 1 Mbit/s gives exactly 131072 bytes per second and 1 MB/s
exactly 1048576. -/
theorem c7_speed_unit_conversion :
    (∀ v : ℚ, speed_to_bps v "KB/s" = some (v * 1024)) ∧
    (∀ v : ℚ, speed_to_bps v "MB/s" = some (v * 1048576)) ∧
    (∀ v : ℚ, speed_to_bps v "GB/s" = some (v * 1073741824)) ∧
    (∀ v : ℚ, speed_to_bps v "Kbit/s" = some (v * 1024 / 8)) ∧
    (∀ v : ℚ, speed_to_bps v "Mbit/s" = some (v * 1048576 / 8)) ∧
    (∀ v : ℚ, speed_to_bps v "Gbit/s" = some (v * 1073741824 / 8)) ∧
    speed_to_bps 1 "Mbit/s" = some 131072 ∧
    speed_to_bps 1 "MB/s" = some 1048576 := by
  have ek : strLower "KB/s" = "kb/s" := by decide
  have em : strLower "MB/s" = "mb/s" := by decide
  have eg : strLower "GB/s" = "gb/s" := by decide
  have ekb : strLower "Kbit/s" = "kbit/s" := by decide
  have emb : strLower "Mbit/s" = "mbit/s" := by decide
  have egb : strLower "Gbit/s" = "gbit/s" := by decide
  have hk : strEndsWith "kb/s" "bit/s" = false := by decide
  have hm : strEndsWith "mb/s" "bit/s" = false := by decide
  have hg : strEndsWith "gb/s" "bit/s" = false := by decide
  have hkb : strEndsWith "kbit/s" "bit/s" = true := by decide
  have hmb : strEndsWith "mbit/s" "bit/s" = true := by decide
  have hgb : strEndsWith "gbit/s" "bit/s" = true := by decide
  refine ⟨?_, ?_, ?_, ?_, ?_, ?_, ?_, ?_⟩
  · intro v; simp [speed_to_bps, ek, hk]
  · intro v; simp [speed_to_bps, em, hm]
  · intro v; simp [speed_to_bps, eg, hg]
  · intro v; simp [speed_to_bps, ekb, hkb]
  · intro v; simp [speed_to_bps, emb, hmb]
  · intro v; simp [speed_to_bps, egb, hgb]
  · simp [speed_to_bps, emb, hmb]
    try norm_num
  · simp [speed_to_bps, em, hm]
    try norm_num

/-- Claim C1 counterexample: the claim says scanning stops at the first
(most recent) identifier-matching line regardless of match outcome, so
that a most recent identifier-matching line matching neither pattern
family makes the result indeterminate.  Here the most recent
identifier-matching line matches neither family, yet the scan continues
and the older paused line decides the result. -/
theorem c1_counterexample :
    lineMentions "123" "AppID 123 update queued" = true ∧
    pauseMatch "AppID 123 update queued".data = false ∧
    resumeMatch "AppID 123 update queued".data = false ∧
    infer_status_from_logs ["AppID 123 paused", "AppID 123 update queued"]
      "123" = some "PAUSED" := by decide

/-- Claim C1 as amended: status inference scans newest-first and returns
the classification of the most recent identifier-matching line that
matches a pause or resume pattern (pause checked first); identifier-
matching lines matching neither family are skipped, and only if no
identifier-matching line matches either family is the result
indeterminate.  In particular an older paused line is outweighed by a
newer downloading line. -/
theorem c1_amended_log_status_scan :
    (∀ lines appid, infer_status_from_logs lines appid =
      (((tailLines lines).reverse.filter (fun l => lineMentions appid l))
        |>.findSome? classifyStatusLine)) ∧
    infer_status_from_logs ["AppID 123 paused", "AppID 123 downloading"]
      "123" = some "DOWNLOADING" := by
  constructor
  · intro lines appid
    exact statusScan_eq_findSome appid (tailLines lines).reverse
  · decide

/-- Claim C3 counterexample: the claim says that when the most recent
identifier-matching line has no speed token the result is indeterminate,
never the speed of an older identifier-matching line.  Here the most
recent identifier-matching line has no speed token, yet the scan
continues and returns the speed of the older line (5 MB/s = 5242880
bytes per second). -/
theorem c3_counterexample :
    lineMentions "123" "AppID 123 update queued" = true ∧
    speedSearch "AppID 123 update queued".data = none ∧
    infer_speed_from_logs ["AppID 123 downloading at 5 MB/s",
      "AppID 123 update queued"] "123" = some 5242880 := by
  refine ⟨by decide, by decide, ?_⟩
  have h1 : lineMentions "123" "AppID 123 update queued" = true := by decide
  have h2 : lineMentions "123" "AppID 123 downloading at 5 MB/s" = true := by
    decide
  have h3 : speedSearch "AppID 123 update queued".data = none := by decide
  have h4 : speedSearch "AppID 123 downloading at 5 MB/s".data =
      some (("5".data, "".data), "MB/s") := by decide
  have h5 : strLower "MB/s" = "mb/s" := by decide
  have h6 : strEndsWith "mb/s" "bit/s" = false := by decide
  have h7 : digitsToNat "5".data = 5 := by decide
  have h8 : digitsToNat "".data = 0 := by decide
  simp [infer_speed_from_logs, tailLines, speedScan, h1, h2, h3, h4,
    speed_to_bps, h5, h6, decimalToRat, h7, h8]
  try norm_num

/-- Claim C3 as amended: speed inference scans newest-first and returns
the converted speed of the most recent identifier-matching line that
carries a speed token; identifier-matching lines without one are
skipped, and only if no identifier-matching line carries a speed token
is the result indeterminate (a matched unit is always recognized, so
the conversion never fails). -/
theorem c3_amended_log_speed_scan :
    (∀ lines appid, infer_speed_from_logs lines appid =
      (((tailLines lines).reverse.filter (fun l => lineMentions appid l))
        |>.findSome? classifySpeedLine)) ∧
    infer_speed_from_logs ["AppID 123 update queued"] "123" = none := by
  constructor
  · intro lines appid
    exact speedScan_eq_findSome appid (tailLines lines).reverse
  · decide

/-- Claim C6: a missing or unreadable manifest, or one whose parse has
no "AppState" mapping, yields the zero record with the synthesized
"AppID <id>" placeholder name and empty state flags; and with a present
mapping each numeric field is extracted independently through to_int,
which substitutes 0 for a missing value, a nested mapping, or a
non-numeric string. -/
theorem c6_manifest_defaults :
    (∀ appid, get_app_info appid none =
      { name := "AppID " ++ appid, bd := 0, btd := 0, sf := "",
        bs := 0, bts := 0, bc := 0, sod := 0 }) ∧
    (∀ appid content,
      isObjVal (kvLookup (load_kv_file content) "AppState") = false →
      get_app_info appid content =
        { name := "AppID " ++ appid, bd := 0, btd := 0, sf := "",
          bs := 0, bts := 0, bc := 0, sod := 0 }) ∧
    (∀ appid content app,
      kvLookup (load_kv_file content) "AppState" = some (KV.obj app) →
      (get_app_info appid content).bd =
        pyToInt (kvLookup app "BytesDownloaded") ∧
      (get_app_info appid content).btd =
        pyToInt (kvLookup app "BytesToDownload") ∧
      (get_app_info appid content).bs =
        pyToInt (kvLookup app "BytesStaged") ∧
      (get_app_info appid content).bts =
        pyToInt (kvLookup app "BytesToStage") ∧
      (get_app_info appid content).bc =
        pyToInt (kvLookup app "BytesCommitted") ∧
      (get_app_info appid content).sod =
        pyToInt (kvLookup app "SizeOnDisk")) ∧
    pyToInt none = 0 ∧
    (∀ o, pyToInt (some (KV.obj o)) = 0) ∧
    (∀ s, pyIntParse s = none → pyToInt (some (KV.str s)) = 0) := by
  refine ⟨fun appid => rfl, ?_, ?_, by decide, ?_, ?_⟩
  · intro appid content h
    cases hk : kvLookup (load_kv_file content) "AppState" with
    | none => simp [get_app_info, hk]
    | some v =>
      cases v with
      | str s => simp [get_app_info, hk]
      | obj app => rw [hk] at h; simp [isObjVal] at h
  · intro appid content app h
    refine ⟨?_, ?_, ?_, ?_, ?_, ?_⟩ <;> simp [get_app_info, h]
  · intro o
    show (pyIntParse (pyStr (KV.obj o))).getD 0 = 0
    rw [show pyStr (KV.obj o) = pyReprKV (KV.obj o) from rfl,
      pyIntParse_reprObj]
    rfl
  · intro s h
    show (pyIntParse (pyStr (KV.str s))).getD 0 = 0
    rw [show pyStr (KV.str s) = s from rfl, h]
    rfl

/-- Witness for C6 at concrete inputs: a manifest whose parse has no
AppState mapping gives the zero record for item 7; with an AppState
mapping present, the BytesDownloaded field equals to_int of its raw
value; and the non-numeric string "12.5" coerces to 0. -/
theorem c6_manifest_defaults_witness :
    get_app_info "7" (some "\"x\" \"y\"") =
      { name := "AppID 7", bd := 0, btd := 0, sf := "",
        bs := 0, bts := 0, bc := 0, sod := 0 } ∧
    (get_app_info "7"
        (some "\"AppState\" \x7b \"BytesDownloaded\" \"42\" \x7d")).bd =
      pyToInt (kvLookup [("BytesDownloaded", KV.str "42")]
        "BytesDownloaded") ∧
    pyToInt (some (KV.str "12.5")) = 0 := by
  refine ⟨?_, ?_, ?_⟩
  · exact c6_manifest_defaults.2.1 "7" (some "\"x\" \"y\"") (by decide)
  · exact (c6_manifest_defaults.2.2.1 "7"
      (some "\"AppState\" \x7b \"BytesDownloaded\" \"42\" \x7d")
      [("BytesDownloaded", KV.str "42")] rfl).1
  · exact c6_manifest_defaults.2.2.2.2.2 "12.5" (by decide)

/-- Claim C2: on every tick the derived status follows the exact
precedence log-PAUSED, log-DOWNLOADING, no-network streak at least 2
(whether or not the no-progress streak is also at least 2), no-progress
streak alone at least 2, otherwise UNKNOWN; and three consecutive ticks
with zero received-byte delta, zero bytes-downloaded delta and no log
signal give WAITING/STOPPED at tick 3 and already at tick 2 (tick 1 is
UNKNOWN).  The streak scenario runs the full loop body from a fresh
per-item state. -/
theorem c2_status_precedence_and_streaks :
    (∀ n d, deriveStatus (some "PAUSED") n d = "ПАУЗА") ∧
    (∀ n d, deriveStatus (some "DOWNLOADING") n d = "ЗАГРУЗКА") ∧
    (∀ n d, deriveStatus none (n + 2) d = "ОЖИДАНИЕ/СТОП") ∧
    (∀ d, deriveStatus none 0 (d + 2) = "ЗАГРУЗКА") ∧
    (∀ d, deriveStatus none 1 (d + 2) = "ЗАГРУЗКА") ∧
    deriveStatus none 0 0 = "НЕИЗВЕСТНО" ∧
    deriveStatus none 0 1 = "НЕИЗВЕСТНО" ∧
    deriveStatus none 1 0 = "НЕИЗВЕСТНО" ∧
    deriveStatus none 1 1 = "НЕИЗВЕСТНО" ∧
    (∀ appid lib content bs net t0 t1 t2 t3,
      loopTick
          { appid := appid, lib := lib,
              last_bd := (get_app_info appid content).bd, last_bs := bs,
              net0 := net, t0 := t0, no_download_progress_streak := 0,
              no_net_streak := 0 }
          { active := [(appid, lib)], manifestContent := content,
              net_recv := net, t := t1, logLines := none } =
        some
          ({ appid := appid, lib := lib,
                last_bd := (get_app_info appid content).bd,
                last_bs := (get_app_info appid content).bs,
                net0 := net, t0 := t1, no_download_progress_streak := 1,
                no_net_streak := 1 },
            some
              { name := (get_app_info appid content).name, bps := 0,
                bd := (get_app_info appid content).bd,
                btd := (get_app_info appid content).btd,
                status := "НЕИЗВЕСТНО" }) ∧
      loopTick
          { appid := appid, lib := lib,
              last_bd := (get_app_info appid content).bd, last_bs := (get_app_info appid content).bs,
              net0 := net, t0 := t1, no_download_progress_streak := 1,
              no_net_streak := 1 }
          { active := [(appid, lib)], manifestContent := content,
              net_recv := net, t := t2, logLines := none } =
        some
          ({ appid := appid, lib := lib,
                last_bd := (get_app_info appid content).bd,
                last_bs := (get_app_info appid content).bs,
                net0 := net, t0 := t2, no_download_progress_streak := 2,
                no_net_streak := 2 },
            some
              { name := (get_app_info appid content).name, bps := 0,
                bd := (get_app_info appid content).bd,
                btd := (get_app_info appid content).btd,
                status := "ОЖИДАНИЕ/СТОП" }) ∧
      loopTick
          { appid := appid, lib := lib,
              last_bd := (get_app_info appid content).bd, last_bs := (get_app_info appid content).bs,
              net0 := net, t0 := t2, no_download_progress_streak := 2,
              no_net_streak := 2 }
          { active := [(appid, lib)], manifestContent := content,
              net_recv := net, t := t3, logLines := none } =
        some
          ({ appid := appid, lib := lib,
                last_bd := (get_app_info appid content).bd,
                last_bs := (get_app_info appid content).bs,
                net0 := net, t0 := t3, no_download_progress_streak := 3,
                no_net_streak := 3 },
            some
              { name := (get_app_info appid content).name, bps := 0,
                bd := (get_app_info appid content).bd,
                btd := (get_app_info appid content).btd,
                status := "ОЖИДАНИЕ/СТОП" })) := by
  refine ⟨fun n d => rfl, fun n d => rfl, ?_, ?_, ?_, rfl, rfl, rfl, rfl, ?_⟩
  · intro n d
    simp [deriveStatus]
    try omega
  · intro d
    simp [deriveStatus]
  · intro d
    simp [deriveStatus]
  · intro appid lib content bs net t0 t1 t2 t3
    refine ⟨?_, ?_, ?_⟩ <;>
      simp [loopTick, deriveStatus, sub_self, zero_div, max_self]

/-- Claim C8: when the top discovery result differs from the tracked
(identifier, root) pair, the tick resets the tracked pair, both streak
counters to zero, the network counter and timestamp baselines to the
fresh samples, the bytes-downloaded and bytes-staged baselines to the
new item's manifest values, and emits no status line; the streaks of
the resulting state are zero, so the next evaluated tick starts
counting from zero. -/
theorem c8_active_switch_reset : ∀ st inp a l rest,
    inp.active = (a, l) :: rest →
    (a, l) ≠ (st.appid, st.lib) →
    loopTick st inp = some
      ({ appid := a, lib := l,
         last_bd := (get_app_info a inp.manifestContent).bd,
         last_bs := (get_app_info a inp.manifestContent).bs,
         net0 := inp.net_recv, t0 := inp.t,
         no_download_progress_streak := 0, no_net_streak := 0 }, none) := by
  intro st inp a l rest ha hne
  have hcond : a ≠ st.appid ∨ l ≠ st.lib := by
    by_cases h1 : a = st.appid
    · refine Or.inr fun h2 => hne ?_
      rw [h1, h2]
    · exact Or.inl h1
  simp only [loopTick, ha]
  rw [if_pos hcond]

/-- Witness for C8 at a concrete switch: tracked item "111" with
nonzero streaks and baselines, discovery now reports "222", and the
tick returns the fully reset state with no report. -/
theorem c8_active_switch_reset_witness :
    loopTick
      { appid := "111", lib := "C:", last_bd := 5, last_bs := 6,
        net0 := 70, t0 := 8, no_download_progress_streak := 4,
        no_net_streak := 9 }
      { active := [("222", "C:")], manifestContent := none,
        net_recv := 90, t := 11, logLines := none } = some
      ({ appid := "222", lib := "C:",
         last_bd := (get_app_info "222" none).bd,
         last_bs := (get_app_info "222" none).bs,
         net0 := 90, t0 := 11,
         no_download_progress_streak := 0, no_net_streak := 0 }, none) :=
  c8_active_switch_reset
    { appid := "111", lib := "C:", last_bd := 5, last_bs := 6,
      net0 := 70, t0 := 8, no_download_progress_streak := 4,
      no_net_streak := 9 }
    { active := [("222", "C:")], manifestContent := none,
      net_recv := 90, t := 11, logLines := none }
    "222" "C:" [] rfl (by decide)

/-- Claim C5 counterexample: the input consists of two well-balanced
quoted-string tokens (no brace tokens at all), yet truncating it inside
the second quoted string, whose content starts with an open brace,
leaks that brace as a structural token: the truncated parse binds k to
a nested mapping while the full parse binds k to a string, so the
truncated result is not a subtree of the full one. -/
theorem c5_counterexample :
    "\"k\" \"\x7b" ++ "x\"" = "\"k\" \"\x7bx\"" ∧
    tokenize "\"k\" \"\x7bx\"".data = ["k", "\x7bx"] ∧
    parse_keyvalues "\"k\" \"\x7bx\"" = [("k", KV.str "\x7bx")] ∧
    parse_keyvalues "\"k\" \"\x7b" = [("k", KV.obj [])] ∧
    isSubObj (parse_keyvalues "\"k\" \"\x7b")
      (parse_keyvalues "\"k\" \"\x7bx\"") = false :=
  ⟨rfl, rfl, rfl, rfl, by decide⟩

/-- Claim C5 as amended: truncation is taken at token granularity (a
character-level cut inside a quoted string can turn brace characters of
its content into structural tokens and change the shape of the tree),
and the input must not bind the same key twice at the same mapping
level along the parse (a later duplicate binding overwrites an earlier
one, so an early cut would disagree with the overwritten value).  Under
those two conditions, for every split of a token list, parsing the
prefix yields a subtree of the full parse - with no balancedness
assumption on the tokens. -/
theorem c5_amended_token_truncation_subtree : ∀ ts1 ts2,
    dupFreeTokens (ts1 ++ ts2) = true →
    isSubObj (parseTokens ts1) (parseTokens (ts1 ++ ts2)) = true := by
  intro ts1 ts2 hdf
  have hs := parseObjChk_isSome ((ts1 ++ ts2).length + 1) [] (ts1 ++ ts2)
    (by omega)
  cases hfull : parseObjChk ((ts1 ++ ts2).length + 1) [] (ts1 ++ ts2) with
  | none => rw [hfull] at hs; simp at hs
  | some x =>
    obtain ⟨o2, r2, b⟩ := x
    have hb : b = true := by
      unfold dupFreeTokens at hdf
      rw [hfull] at hdf
      exact hdf
    subst hb
    have hfull2 : parseTokens (ts1 ++ ts2) = o2 := by
      unfold parseTokens
      rw [parseObjectF_eq_chk, hfull]
      rfl
    rw [hfull2]
    have ht := parseObjectF_total [] ts1
    cases htr : parseObjectF (ts1.length + 1) [] ts1 with
    | none => rw [htr] at ht; simp at ht
    | some y =>
      have htr2 : parseTokens ts1 = y.1 := by
        unfold parseTokens
        rw [htr]
      have hmono := parseObjectF_mono (ts1.length + 1)
        ((ts1 ++ ts2).length + 1) [] ts1 y
        (by simp only [List.length_append]; omega) htr
      rcases parseTrunc_main ((ts1 ++ ts2).length + 1) ts1 ts2 [] o2 r2
          hfull with ⟨r1, ha, -⟩ | ⟨o1, hb1, hsub⟩
      · rw [ha] at hmono
        rw [htr2, ← Option.some.inj hmono]
        exact isSubObj_refl o2
      · rw [hb1] at hmono
        rw [htr2, ← Option.some.inj hmono]
        exact hsub

/-- Witness for C5 at a concrete split: the duplicate-free balanced
token list k, open, a, b, close, m, n truncated after its third token
parses to a subtree of the full parse. -/
theorem c5_amended_token_truncation_subtree_witness :
    isSubObj (parseTokens ["k", "\x7b", "a"])
      (parseTokens (["k", "\x7b", "a"] ++ ["b", "\x7d", "m", "n"])) = true :=
  c5_amended_token_truncation_subtree ["k", "\x7b", "a"]
    ["b", "\x7d", "m", "n"] (by decide)

end SteamMon
